import Mathlib

/-!
Verification of the note-markup engine of `n8n-nodes-evernote`
(`src/nodes/Evernote/utils.ts` and `src/nodes/Evernote/Evernote.node.ts`).

Strings are embedded as `List Char`.  External libraries used by the code
(`crypto` MD5, `RegExp`, `JSON.parse`, `sanitize-html`) are either embedded
for the fragment the code exercises (the regular-expression engine used by
the search-and-replace branch) or passed as explicit function parameters
and quantified over in the theorems (`md5`, `parseJson`, `sanitize`).
-/

set_option maxRecDepth 8192

abbrev Str := List Char

/-- ASCII lower-casing, the canonicalisation used by a case-insensitive
(`/i`) regular-expression match on the ASCII patterns of this code base. -/
def lowerCh (c : Char) : Char :=
  if 'A' ≤ c ∧ c ≤ 'Z' then Char.ofNat (c.toNat + 32) else c

/-- `ciStarts pat s` holds when `pat` is a case-insensitive initial segment
of `s`. -/
def ciStarts : Str → Str → Bool
  | [], _ => true
  | _ :: _, [] => false
  | p :: ps, c :: cs => if lowerCh c = lowerCh p then ciStarts ps cs else false

/-- `hasCISub pat s`: some suffix of `s` starts (case-insensitively) with
`pat`, i.e. `s` contains `pat` as a case-insensitive substring. -/
def hasCISub (pat : Str) : Str → Bool
  | [] => ciStarts pat []
  | c :: cs => ciStarts pat (c :: cs) || hasCISub pat cs

/-- The ENML doctype constant (`enmlDocType` in `utils.ts`). -/
def enmlDocType : Str :=
  "<!DOCTYPE en-note SYSTEM \"http://xml.evernote.com/pub/enml2.dtd\">".data

/-- `wrapEnmlBody` from `utils.ts`: XML prolog + doctype + `<en-note>` root
around the body. -/
def wrapEnmlBody (body : Str) : Str :=
  "<?xml version=\"1.0\" encoding=\"UTF-8\"?>\n".data ++ enmlDocType ++
    "<en-note>".data ++ body ++ "</en-note>".data

/-- The literal text of the root-element opening pattern `<en-note`. -/
def enNoteOpenPat : Str := "<en-note".data

/-- The literal text of the root-element closing pattern `</en-note>`. -/
def enNoteClosePat : Str := "</en-note>".data

/-- Lazy capture of `([\s\S]*?)` followed by `</en-note>` (case-insensitive):
the shortest prefix of the input that is followed by the closing tag, or
`none` when the closing tag never occurs. -/
def captureTilClose : Str → Option Str
  | [] => none
  | c :: rest =>
    if ciStarts enNoteClosePat (c :: rest) then some []
    else
      match captureTilClose rest with
      | some t => some (c :: t)
      | none => none

/-- The `[^>]*>` part of the root-element regular expression: skip to the
first `>` (the `[^>]*` class cannot cross one), then capture lazily. -/
def afterGt : Str → Option Str
  | [] => none
  | c :: rest => if c = '>' then captureTilClose rest else afterGt rest

/-- Leftmost match of `/<en-note[^>]*>([\s\S]*?)<\/en-note>/i`, returning the
first capture group.  The scan advances one character at a time; at a
position where `<en-note` matches case-insensitively, the rest of the
pattern is attempted, and on its failure the scan resumes one character
further, exactly as a backtracking regular-expression engine does. -/
def extractAux : Str → Option Str
  | [] => none
  | c :: rest =>
    if ciStarts enNoteOpenPat (c :: rest) then
      match afterGt (List.drop enNoteOpenPat.length (c :: rest)) with
      | some b => some b
      | none => extractAux rest
    else extractAux rest

/-- `extractEnmlBody` from `utils.ts`: the capture of the root-element match,
or the empty string when there is no match. -/
def extractEnmlBody (enml : Str) : Str :=
  match extractAux enml with
  | some b => b
  | none => []

/-- `scanFail xs la = true` records that the root-element opening pattern
matches at no position of `xs` when `xs` is followed by the look-ahead
`la`.  Used to step the leftmost-match scan over the concrete prolog. -/
def scanFail : Str → Str → Bool
  | [], _ => true
  | c :: cs, la => !ciStarts enNoteOpenPat ((c :: cs) ++ la) && scanFail cs la

/-- One global-replace pass of a single character by a fixed string: the
semantics of `value.replace(/c/g, repl)` for a single-character pattern. -/
def replaceChar (target : Char) (repl : Str) : Str → Str
  | [] => []
  | c :: rest =>
    if c = target then repl ++ replaceChar target repl rest
    else c :: replaceChar target repl rest

/-- `escapeXml` from `utils.ts`: four sequential global replaces, applied
left to right — ampersand first, then `<`, `>`, `"`. -/
def escapeXml (value : Str) : Str :=
  replaceChar '"' "&quot;".data
    (replaceChar '>' "&gt;".data
      (replaceChar '<' "&lt;".data
        (replaceChar '&' "&amp;".data value)))

/-- The `.replace(/\r?\n/g, '<br />')` pass of `plainTextToEnml`: each
leftmost match of `\r?\n` — a `\r\n` pair or a lone `\n` — becomes one
`<br />`; a `\r` not followed by `\n` is kept. -/
def convertNewlines : Str → Str
  | [] => []
  | '\r' :: '\n' :: rest => "<br />".data ++ convertNewlines rest
  | '\n' :: rest => "<br />".data ++ convertNewlines rest
  | c :: rest => c :: convertNewlines rest

/-- `plainTextToEnml` from `utils.ts`: escape, convert line breaks, wrap in
one `<div>` block, wrap in the document shell. -/
def plainTextToEnml (text : Str) : Str :=
  wrapEnmlBody ("<div>".data ++ convertNewlines (escapeXml text) ++ "</div>".data)

/-- The per-character tokenisation the specification describes for
`fromPlainText`: each escaped metacharacter becomes its entity, each line
break one inline break element, every other character itself.  Stated from
the specification's words, to be proved equal to the implementation's
sequential-replace pipeline. -/
def encodePlainChar (c : Char) : Str :=
  if c = '&' then "&amp;".data
  else if c = '<' then "&lt;".data
  else if c = '>' then "&gt;".data
  else if c = '"' then "&quot;".data
  else [c]

/-- Single pass of `encodePlainChar` over a text, with `\r\n` and `\n`
line breaks becoming one `<br />` each (specification-side description). -/
def encodePlain : Str → Str
  | [] => []
  | '\r' :: '\n' :: rest => "<br />".data ++ encodePlain rest
  | '\n' :: rest => "<br />".data ++ encodePlain rest
  | c :: rest => encodePlainChar c ++ encodePlain rest

/-- `sanitizeHtmlToEnml` from `utils.ts`, with the external `sanitize-html`
library passed as the function parameter `sanitize`. -/
def sanitizeHtmlToEnml (sanitize : Str → Str) (html : Str) : Str :=
  wrapEnmlBody (sanitize html)

/-- One lowercase hexadecimal digit. -/
def hexDigit (n : Nat) : Char :=
  if n < 10 then Char.ofNat ('0'.toNat + n) else Char.ofNat ('a'.toNat + (n - 10))

/-- `Buffer.prototype.toString('hex')`: two lowercase hex digits per byte. -/
def hexEncode : List Nat → Str
  | [] => []
  | b :: rest => hexDigit (b / 16 % 16) :: hexDigit (b % 16) :: hexEncode rest

/-- One binary payload of a work item, as surfaced by the host engine
(`item.binary[propertyName]`): the raw byte buffer and the optional
`mimeType` / `fileName` / `file` metadata fields. -/
structure BinaryData where
  buffer : List Nat
  mimeType : Option Str
  fileName : Option Str
  file : Option Str
deriving DecidableEq

/-- JavaScript `a || b` for an optional string `a`: `undefined` and the
empty string are falsy. -/
def jsOr (a : Option Str) (b : Str) : Str :=
  match a with
  | some s => if s = [] then b else s
  | none => b

/-- `Evernote.Types.Data`: raw bytes, byte length and recorded body hash. -/
structure EvResourceData where
  body : List Nat
  size : Nat
  bodyHash : List Nat
deriving DecidableEq

/-- `Evernote.Types.Resource` (with its `ResourceAttributes.fileName`). -/
structure EvResource where
  data : EvResourceData
  mime : Str
  fileName : Str
deriving DecidableEq

/-- `ResourceBuildResult` from `utils.ts`. -/
structure ResourceBuildResult where
  resources : List EvResource
  mediaTags : List Str
deriving DecidableEq

/-- Lookup of a binary property on the current item by logical name. -/
def lookupBinary : List (Str × BinaryData) → Str → Option BinaryData
  | [], _ => none
  | (k, v) :: rest, name => if k = name then some v else lookupBinary rest name

/-- The inline reference-tag template of `buildResourcesFromBinary`:
`<en-media type="MIME" hash="HEX" />`. -/
def mediaTagFor (mime hashHex : Str) : Str :=
  "<en-media type=\"".data ++ mime ++ "\" hash=\"".data ++ hashHex ++ "\" />".data

/-- The error kinds the per-item code can raise before reaching the remote
update call.  `missingBinary` is `assertBinaryData` failing (the spec's
`InputError`); `invalidJsonAttributes` is `NodeOperationError "Invalid JSON
in Note Attributes"`; `emptySearchValue` is the `NodeOperationError` raised
for an empty Search & Replace pattern (both spec `ValidationError`s);
`invalidPattern` is `NodeOperationError "Invalid regular expression for
Search Text / Pattern"` (the spec's `InvalidPatternError`). -/
inductive Err where
  | missingBinary (propertyName : Str)
  | invalidJsonAttributes
  | emptySearchValue
  | invalidPattern
deriving DecidableEq

/-- `buildResourcesFromBinary` from `utils.ts`.  The MD5 digest from
`crypto` is the function parameter `md5`; `binary` holds the item's binary
payloads keyed by property name.  A missing property fails the item
(`assertBinaryData`), the hash is computed once over the raw buffer and
used both in the resource descriptor and (hex-encoded) in the media tag. -/
def buildResourcesFromBinary (md5 : List Nat → List Nat)
    (binary : List (Str × BinaryData)) : List Str → Except Err ResourceBuildResult
  | [] => .ok ⟨[], []⟩
  | propertyName :: rest =>
    match lookupBinary binary propertyName with
    | none => .error (.missingBinary propertyName)
    | some binaryData =>
      let buffer := binaryData.buffer
      let bodyHash := md5 buffer
      let mime := jsOr binaryData.mimeType "application/octet-stream".data
      let resource : EvResource :=
        { data := { body := buffer, size := buffer.length, bodyHash := bodyHash },
          mime := mime,
          fileName := jsOr binaryData.fileName (jsOr binaryData.file propertyName) }
      match buildResourcesFromBinary md5 binary rest with
      | .error e => .error e
      | .ok r =>
        .ok ⟨resource :: r.resources, mediaTagFor mime (hexEncode bodyHash) :: r.mediaTags⟩

/-- The ASCII whitespace class of JavaScript `String.prototype.trim`. -/
def isJsSpace (c : Char) : Bool :=
  c = ' ' ∨ c = '\t' ∨ c = '\n' ∨ c = '\r' ∨ c = Char.ofNat 11 ∨ c = Char.ofNat 12

/-- JavaScript `String.prototype.trim` (ASCII whitespace). -/
def trimStr (s : Str) : Str :=
  ((s.dropWhile isJsSpace).reverse.dropWhile isJsSpace).reverse

/-- JavaScript `String.prototype.split` with a single-character separator
(`"".split(sep)` is `[""]`, separators delimit possibly empty fields). -/
def splitOnChar (sep : Char) : Str → List Str
  | [] => [[]]
  | c :: rest =>
    if c = sep then [] :: splitOnChar sep rest
    else
      match splitOnChar sep rest with
      | g :: gs => (c :: g) :: gs
      | [] => [[c]]

/-- `splitTags` from `Evernote.node.ts`: split on commas, trim each entry,
drop empties. -/
def splitTags (raw : Str) : List Str :=
  ((splitOnChar ',' raw).map trimStr).filter (fun tag => tag ≠ [])

/-- `parseBinaryPropertyNames` from `utils.ts`: the same split, trim and
drop-empties pipeline over the configured property-name list. -/
def parseBinaryPropertyNames (raw : Str) : List Str :=
  ((splitOnChar ',' raw).map trimStr).filter (fun name => name ≠ [])

/-- The character class of the escaping pass `searchValue.replace(/[.*+?^${}()|[\]\\]/g, '\\$&')`:
the regular-expression metacharacters. -/
def regexMetachars : List Char :=
  ['.', '*', '+', '?', '^', '$', Char.ofNat 123, Char.ofNat 125, '(', ')', '|', '[', ']', '\\']

/-- The escaping pass itself: prefix every metacharacter with a backslash,
leave every other character alone. -/
def escapeRegExp : Str → Str
  | [] => []
  | c :: rest =>
    if c ∈ regexMetachars then '\\' :: c :: escapeRegExp rest
    else c :: escapeRegExp rest

/-- One atom of the embedded regular-expression fragment: a literal
character or the `\d` digit class.  The fragment covers every pattern the
non-regex path can produce, and the simple user patterns the
specification exercises. -/
inductive RItem where
  | lit (c : Char)
  | digitClass
deriving DecidableEq

/-- Compilation of a pattern string into the fragment: plain
non-metacharacter characters, backslash escapes of the metacharacters
(and of `/`), and `\d`.  Every other construct is reported as failing to
compile (`none`), the fragment's rendering of `new RegExp(pattern)`
throwing. -/
def parsePattern : Str → Option (List RItem)
  | [] => some []
  | c :: rest =>
    if c = '\\' then
      match rest with
      | [] => none
      | c2 :: rest2 =>
        if c2 = 'd' then (parsePattern rest2).map (RItem.digitClass :: ·)
        else if c2 ∈ regexMetachars ∨ c2 = '/' then (parsePattern rest2).map (RItem.lit c2 :: ·)
        else none
    else if c ∈ regexMetachars then none
    else (parsePattern rest).map (RItem.lit c :: ·)

/-- Case canonicalisation applied when the `i` flag is set. -/
def lowerIf (ci : Bool) (c : Char) : Char := if ci then lowerCh c else c

/-- Whether one atom matches one character (under the `i` flag when `ci`). -/
def itemMatches (ci : Bool) : RItem → Char → Bool
  | .lit p, c => lowerIf ci c = lowerIf ci p
  | .digitClass, c => '0' ≤ c ∧ c ≤ '9'

/-- Match a sequence of atoms against an initial segment of the input,
returning the matched text and the remaining input. -/
def matchItems (ci : Bool) : List RItem → Str → Option (Str × Str)
  | [], s => some ([], s)
  | _ :: _, [] => none
  | it :: its, c :: cs =>
    if itemMatches ci it c then
      match matchItems ci its cs with
      | some (m, rest) => some (c :: m, rest)
      | none => none
    else none

/-- The backquote character (code 96). -/
def backquoteCh : Char := Char.ofNat 96

/-- The single-quote character (code 39). -/
def singleQuoteCh : Char := Char.ofNat 39

/-- `GetSubstitution` of `String.prototype.replace` for a pattern without
capture groups: `$$` inserts a dollar sign, `$&` the matched text,
dollar-backquote the input before the match, dollar-single-quote the
input after it; any other use of `$` is literal. -/
def substApply (matched before after : Str) : Str → Str
  | [] => []
  | ['$'] => ['$']
  | '$' :: c2 :: rest2 =>
    if c2 = '$' then '$' :: substApply matched before after rest2
    else if c2 = '&' then matched ++ substApply matched before after rest2
    else if c2 = backquoteCh then before ++ substApply matched before after rest2
    else if c2 = singleQuoteCh then after ++ substApply matched before after rest2
    else '$' :: substApply matched before after (c2 :: rest2)
  | c :: rest => c :: substApply matched before after rest

/-- Fuel-driven global replace: at each position try the whole pattern; on
a match emit the substituted replacement and continue after the match
(advancing one character on an empty match, as `lastIndex` does);
otherwise keep the character.  `before` is the input already scanned.
Any fuel exceeding the input length gives the replace semantics. -/
def replGo (ci : Bool) (items : List RItem) (repl : Str) :
    Nat → Str → Str → Str
  | 0, _, rest => rest
  | _ + 1, before, [] =>
    if items = [] then substApply [] before [] repl else []
  | fuel + 1, before, c :: cs =>
    match matchItems ci items (c :: cs) with
    | some (m, rest) =>
      if items = [] then
        substApply [] before (c :: cs) repl ++
          c :: replGo ci items repl fuel (before ++ [c]) cs
      else
        substApply m before rest repl ++ replGo ci items repl fuel (before ++ m) rest
    | none => c :: replGo ci items repl fuel (before ++ [c]) cs

/-- The embedded `new RegExp(pattern, caseSensitive ? 'g' : 'gi')` plus
`String.prototype.replace`: compile the pattern and, on success, return
the global replace function over a body and a replacement text. -/
def jsRegexCompile (pattern : Str) (caseSensitive : Bool) :
    Option (Str → Str → Str) :=
  (parsePattern pattern).map fun items => fun body repl =>
    replGo (!caseSensitive) items repl (body.length + 1) [] body

/-- Equality of strings up to ASCII case when `ci`. -/
def ciEqStr (ci : Bool) (a b : Str) : Prop :=
  a.map (lowerIf ci) = b.map (lowerIf ci)

instance (ci : Bool) (a b : Str) : Decidable (ciEqStr ci a b) :=
  inferInstanceAs (Decidable (a.map (lowerIf ci) = b.map (lowerIf ci)))

/-- Specification-side global literal replacement, fuel-driven with the
same scan structure: replace every leftmost, non-overlapping occurrence
of `search` (case-insensitively when `ci`) by `repl`. -/
def litGo (ci : Bool) (search repl : Str) : Nat → Str → Str
  | 0, rest => rest
  | _ + 1, [] => []
  | fuel + 1, c :: cs =>
    if search.length ≤ (c :: cs).length ∧ ciEqStr ci search ((c :: cs).take search.length) then
      repl ++ litGo ci search repl fuel ((c :: cs).drop search.length)
    else c :: litGo ci search repl fuel cs

/-- Replace every occurrence of the literal string `search` by `repl`,
the specification's reading of the non-regex search-and-replace. -/
def literalReplaceAll (ci : Bool) (search repl s : Str) : Str :=
  litGo ci search repl (s.length + 1) s

/-- The fetched note as the update path sees it: `getNote` always returns
the title, the content only when requested. -/
structure FetchedNote where
  title : Str
  content : Option Str
deriving DecidableEq

/-- The external state one item runs against: the stored note's title,
content and tag names, and the item's binary payloads by property name. -/
structure Env where
  existingTitle : Str
  existingContent : Option Str
  existingTagNames : List Str
  binary : List (Str × BinaryData)
deriving DecidableEq

/-- The node parameters of one `note:update` item. -/
structure UpdateParams where
  noteGuid : Str
  contentEditingMode : Str
  contentMode : Str
  content : Str
  contentHtml : Str
  tags : Str
  tagsMode : Str
  titleUpdate : Str
  notebookGuidUpdate : Str
  attributesJson : Str
  noteAttributesUi : List (Str × Str)
  searchValue : Str
  useRegex : Bool
  caseSensitive : Bool
  addAttachments : Bool
  binaryPropertyNames : Str
deriving DecidableEq

/-- The `noteData` record handed to `noteStore.updateNote`: the optional
fields are present exactly when the code sets them. -/
structure NotePayload where
  guid : Str
  title : Str
  content : Str
  tagNames : Option (List Str)
  resources : Option (List EvResource)
  notebookGuid : Option Str
  attributes : Option (List (Str × Str))
deriving DecidableEq

/-- One remote call to the note-storage collaborator, in issue order. -/
inductive ServiceCall where
  | getNote (guid : Str) (withContent : Bool)
  | getNoteTagNames (guid : Str)
  | updateNote (payload : NotePayload)
deriving DecidableEq

/-- The external libraries the per-item code calls, as functions: the MD5
digest, the regular-expression engine (pattern and `caseSensitive` flag to
an optional global-replace function), `JSON.parse` for the attribute JSON
(an object as an ordered key/value list, `none` on malformed input), and
`sanitize-html`. -/
structure Externals where
  md5 : List Nat → List Nat
  regexCompile : Str → Bool → Option (Str → Str → Str)
  parseJson : Str → Option (List (Str × Str))
  sanitize : Str → Str

/-- Property write `obj[k] = v` on a JavaScript object rendered as an
ordered key/value list: overwrite the first occurrence in place, else
append. -/
def setKey : List (Str × Str) → Str × Str → List (Str × Str)
  | [], kv => [kv]
  | (k, v) :: rest, kv =>
    if k = kv.1 then (k, kv.2) :: rest else (k, v) :: setKey rest kv

/-- `Object.assign(target, src)`: copy the properties of `src` onto
`target` in order, later writes winning. -/
def objAssign (target src : List (Str × Str)) : List (Str × Str) :=
  src.foldl setKey target

/-- First-occurrence property lookup on the ordered key/value list. -/
def lookupStr : List (Str × Str) → Str → Option Str
  | [], _ => none
  | (k, v) :: rest, key => if k = key then some v else lookupStr rest key

/-- The JSON half of the attribute merge: parse the optional JSON blob
into the fresh attribute object, failing the item on malformed input. -/
def parseAttributesJson (parseJson : Str → Option (List (Str × Str)))
    (attributesJson : Str) : Except Err (List (Str × Str)) :=
  if attributesJson ≠ [] then
    match parseJson attributesJson with
    | some parsed => .ok (objAssign [] parsed)
    | none => .error .invalidJsonAttributes
  else .ok []

/-- The attribute-merging block shared by the create and update paths:
parse the optional JSON first, then overlay the structured UI fields. -/
def computeAttributes (parseJson : Str → Option (List (Str × Str)))
    (attributesJson : Str) (noteAttributesUi : List (Str × Str)) :
    Except Err (List (Str × Str)) :=
  match parseAttributesJson parseJson attributesJson with
  | .error e => .error e
  | .ok obj => .ok (if noteAttributesUi ≠ [] then objAssign obj noteAttributesUi else obj)

/-- Keep-first deduplication with an accumulator of already seen names. -/
def dedupGo (seen : List Str) : List Str → List Str
  | [] => []
  | x :: xs => if x ∈ seen then dedupGo seen xs else x :: dedupGo (seen ++ [x]) xs

/-- `[...new Set(list)]`: insertion-ordered deduplication. -/
def jsSetDedup (l : List Str) : List Str := dedupGo [] l

/-- The `tagNames` local of the update path: the parsed requested list,
unless the mode is `ignore`, in which case it stays empty. -/
def requestedTags (params : UpdateParams) : List Str :=
  if params.tagsMode ≠ "ignore".data then splitTags params.tags else []

/-- The tag-mode block of the update path: for `add`/`remove` an extra
`getNoteTagNames` fetch and the union / difference with the existing
names; otherwise the requested names alone. -/
def tagStep (params : UpdateParams) (env : Env) : List ServiceCall × List Str :=
  if params.tagsMode = "add".data then
    ([ServiceCall.getNoteTagNames params.noteGuid],
      jsSetDedup (env.existingTagNames ++ requestedTags params))
  else if params.tagsMode = "remove".data then
    ([ServiceCall.getNoteTagNames params.noteGuid],
      env.existingTagNames.filter (fun tag => !((requestedTags params).contains tag)))
  else ([], requestedTags params)

/-- The attachment step: when attachments are enabled, build the resources
and media tags from the configured binary property names. -/
def attachStep (md5 : List Nat → List Nat) (binary : List (Str × BinaryData))
    (addAttachments : Bool) (binaryPropertyNames : Str) :
    Except Err (Option ResourceBuildResult) :=
  if addAttachments then
    match buildResourcesFromBinary md5 binary (parseBinaryPropertyNames binaryPropertyNames) with
    | .error e => .error e
    | .ok r => .ok (some r)
  else .ok none

/-- `['keep', 'append', 'searchReplace'].includes(contentEditingMode)`. -/
def needsExistingContent (params : UpdateParams) : Bool :=
  params.contentEditingMode = "keep".data ∨ params.contentEditingMode = "append".data ∨
    params.contentEditingMode = "searchReplace".data

/-- The `withContent` argument of the update path's `getNote` call:
`needsExistingContent || !titleUpdate`. -/
def fetchWithContent (params : UpdateParams) : Bool :=
  needsExistingContent params || params.titleUpdate = []

/-- What the update path's `getNote` returns: the title always, the
content only when requested. -/
def fetchedNoteFor (params : UpdateParams) (env : Env) : FetchedNote :=
  { title := env.existingTitle,
    content := if fetchWithContent params then env.existingContent else none }

/-- The new-input encoding shared by the replace and append branches: the
sanitized-HTML path or the plain-text path. -/
def encodeInput (sanitize : Str → Str) (params : UpdateParams) : Str :=
  if params.contentMode = "html".data then sanitizeHtmlToEnml sanitize params.contentHtml
  else plainTextToEnml params.content

/-- The Search & Replace branch (`Evernote.node.ts` lines 1281–1309):
require a non-empty search value, escape it unless `useRegex` is set,
compile with the `g` flag plus `i` unless `caseSensitive`, and globally
replace in the existing body, the replacement text being the content
parameter. -/
def searchReplaceContent (regexCompile : Str → Bool → Option (Str → Str → Str))
    (searchValue : Str) (useRegex caseSensitive : Bool)
    (existingBody replaceValue : Str) : Except Err Str :=
  if searchValue = [] then .error .emptySearchValue
  else
    let pattern := if useRegex then searchValue else escapeRegExp searchValue
    match regexCompile pattern caseSensitive with
    | none => .error .invalidPattern
    | some replaceFn => .ok (replaceFn existingBody replaceValue)

/-- The content-editing mode dispatch of the update path
(`Evernote.node.ts` lines 1264–1310).  `newContent` starts as the empty
string and an unrecognised mode leaves it so. -/
def updateModeContent (ext : Externals) (params : UpdateParams)
    (existingNote : FetchedNote) : Except Err Str :=
  if params.contentEditingMode = "keep".data then
    .ok (jsOr existingNote.content (wrapEnmlBody []))
  else if params.contentEditingMode = "replace".data then
    .ok (encodeInput ext.sanitize params)
  else if params.contentEditingMode = "append".data then
    let existingBody := extractEnmlBody (jsOr existingNote.content [])
    let newBody := extractEnmlBody (encodeInput ext.sanitize params)
    .ok (wrapEnmlBody (existingBody ++ newBody))
  else if params.contentEditingMode = "searchReplace".data then
    let existingBody := extractEnmlBody (jsOr existingNote.content [])
    let replaceValue :=
      if params.contentMode = "html".data then params.contentHtml else params.content
    searchReplaceContent ext.regexCompile params.searchValue params.useRegex
      params.caseSensitive existingBody replaceValue
  else .ok []

/-- Media-tag appending after the mode dispatch (`Evernote.node.ts` lines
1312–1315): whenever media tags were built, rewrap the body with the tags
appended in build order; otherwise leave the content untouched. -/
def applyMediaTags (ares : Option ResourceBuildResult) (content : Str) : Str :=
  match ares with
  | some r =>
    if r.mediaTags ≠ [] then wrapEnmlBody (extractEnmlBody content ++ r.mediaTags.flatten)
    else content
  | none => content

/-- One `note:update` item (`Evernote.node.ts` lines 1232–1381): the
ordered remote calls it issues, and either the error failing the item or
the note payload handed to `updateNote`. -/
def updateOp (ext : Externals) (params : UpdateParams) (env : Env) :
    List ServiceCall × Except Err NotePayload :=
  match attachStep ext.md5 env.binary params.addAttachments params.binaryPropertyNames with
  | .error e => ([], .error e)
  | .ok ares =>
    let existingNote := fetchedNoteFor params env
    let calls0 := [ServiceCall.getNote params.noteGuid (fetchWithContent params)]
    match updateModeContent ext params existingNote with
    | .error e => (calls0, .error e)
    | .ok content0 =>
      let newContent := applyMediaTags ares content0
      let tagPart := tagStep params env
      match computeAttributes ext.parseJson params.attributesJson params.noteAttributesUi with
      | .error e => (calls0 ++ tagPart.1, .error e)
      | .ok merged =>
        let payload : NotePayload :=
          { guid := params.noteGuid,
            title := if params.titleUpdate ≠ [] then params.titleUpdate else existingNote.title,
            content := newContent,
            tagNames := if params.tagsMode ≠ "ignore".data then some tagPart.2 else none,
            resources := Option.map ResourceBuildResult.resources ares,
            notebookGuid :=
              if params.notebookGuidUpdate ≠ [] then some params.notebookGuidUpdate else none,
            attributes := if merged ≠ [] then some merged else none }
        (calls0 ++ tagPart.1 ++ [ServiceCall.updateNote payload], .ok payload)

/-- The node parameters of one `note:create` item. -/
structure CreateParams where
  title : Str
  contentMode : Str
  content : Str
  contentHtml : Str
  notebookGuid : Str
  tags : Str
  attributesJson : Str
  noteAttributesUi : List (Str × Str)
  addAttachments : Bool
  binaryPropertyNames : Str
deriving DecidableEq

/-- The note record handed to `noteStore.createNote`. -/
structure CreatePayload where
  title : Str
  content : Str
  notebookGuid : Option Str
  resources : Option (List EvResource)
  tagNames : Option (List Str)
  attributes : Option (List (Str × Str))
deriving DecidableEq

/-- One `note:create` item (`Evernote.node.ts` lines 1136–1212): either
the error failing the item or the note payload handed to `createNote`. -/
def createOp (ext : Externals) (params : CreateParams) (env : Env) :
    Except Err CreatePayload :=
  match attachStep ext.md5 env.binary params.addAttachments params.binaryPropertyNames with
  | .error e => .error e
  | .ok ares =>
    let baseContent :=
      if params.contentMode = "html".data then sanitizeHtmlToEnml ext.sanitize params.contentHtml
      else plainTextToEnml params.content
    let contentWithMedia := applyMediaTags ares baseContent
    let tagNames := splitTags params.tags
    match computeAttributes ext.parseJson params.attributesJson params.noteAttributesUi with
    | .error e => .error e
    | .ok merged =>
      .ok { title := params.title,
            content := contentWithMedia,
            notebookGuid := if params.notebookGuid ≠ [] then some params.notebookGuid else none,
            resources := Option.map ResourceBuildResult.resources ares,
            tagNames := if tagNames ≠ [] then some tagNames else none,
            attributes := if merged ≠ [] then some merged else none }

/-- A concrete external bundle for closed evaluations: identity hash and
sanitizer, the embedded regular-expression fragment, and a `JSON.parse`
that rejects every input. -/
def plainExternals : Externals :=
  { md5 := fun l => l, regexCompile := jsRegexCompile,
    parseJson := fun _ => none, sanitize := fun s => s }

/-- A baseline update-parameter record for closed evaluations: keep mode,
plain text, ignore tags, no attachments, no attributes. -/
def baseUpdateParams : UpdateParams :=
  { noteGuid := "guid1".data, contentEditingMode := "keep".data,
    contentMode := "plainText".data, content := [], contentHtml := [],
    tags := [], tagsMode := "ignore".data, titleUpdate := [],
    notebookGuidUpdate := [], attributesJson := [], noteAttributesUi := [],
    searchValue := [], useRegex := false, caseSensitive := false,
    addAttachments := false, binaryPropertyNames := "data".data }

/-- A baseline environment for closed evaluations. -/
def baseEnv : Env :=
  { existingTitle := "Old Title".data,
    existingContent := some (wrapEnmlBody "<div>old</div>".data),
    existingTagNames := ["a".data, "b".data],
    binary := [] }

theorem ciStarts_append_of_le (pat s t : Str) (h : pat.length ≤ s.length) :
    ciStarts pat (s ++ t) = ciStarts pat s := by
  induction pat generalizing s with
  | nil => simp [ciStarts]
  | cons p ps ih =>
    cases s with
    | nil => simp at h
    | cons c cs =>
      simp only [List.cons_append, ciStarts]
      split
      · exact ih cs (by simpa using h)
      · rfl

theorem extractAux_skip (xs la rest : Str) (hla : enNoteOpenPat.length ≤ la.length)
    (h : scanFail xs la = true) :
    extractAux (xs ++ (la ++ rest)) = extractAux (la ++ rest) := by
  induction xs with
  | nil => rfl
  | cons c cs ih =>
    rw [scanFail, Bool.and_eq_true, Bool.not_eq_true'] at h
    obtain ⟨h1, h2⟩ := h
    have hg : ciStarts enNoteOpenPat ((c :: cs) ++ (la ++ rest)) = false := by
      rw [← List.append_assoc]
      rw [ciStarts_append_of_le enNoteOpenPat ((c :: cs) ++ la) rest
        (le_trans hla (by simp; omega))]
      exact h1
    rw [List.cons_append, extractAux]
    rw [List.cons_append] at hg
    simp only [hg, Bool.false_eq_true, if_false]
    exact ih h2

theorem extractAux_wrap_scan (rest : Str) (b : Str) (h : captureTilClose rest = some b) :
    extractAux (("<?xml version=\"1.0\" encoding=\"UTF-8\"?>\n".data ++ enmlDocType) ++
      ("<en-note>".data ++ rest)) = some b := by
  rw [extractAux_skip _ _ _ (by decide) (by decide)]
  rw [show ("<en-note>".data ++ rest) = '<' :: ("en-note>".data ++ rest) from rfl]
  rw [extractAux]
  have hg : ciStarts enNoteOpenPat ('<' :: ("en-note>".data ++ rest)) = true := by
    rw [show ('<' :: ("en-note>".data ++ rest)) = "<en-note>".data ++ rest from rfl]
    rw [ciStarts_append_of_le _ _ _ (by decide)]
    decide
  simp only [hg, if_true]
  have hd : List.drop enNoteOpenPat.length ('<' :: ("en-note>".data ++ rest)) = '>' :: rest := by
    rfl
  rw [hd, afterGt]
  simp [h]

theorem ciStarts_close_span (s : Str) (hne : s ≠ [])
    (h : ciStarts enNoteClosePat s = false) :
    ciStarts enNoteClosePat (s ++ enNoteClosePat) = false := by
  rcases s with _ | ⟨a, _ | ⟨b, _ | ⟨c, _ | ⟨d, _ | ⟨e, _ | ⟨f, _ | ⟨g, _ | ⟨a8, _ | ⟨a9, _ | ⟨a10, tail⟩⟩⟩⟩⟩⟩⟩⟩⟩⟩
  · exact absurd rfl hne
  · simp [enNoteClosePat, ciStarts, lowerCh]
  · simp [enNoteClosePat, ciStarts, lowerCh]
  · simp [enNoteClosePat, ciStarts, lowerCh]
  · simp [enNoteClosePat, ciStarts, lowerCh]
  · simp [enNoteClosePat, ciStarts, lowerCh]
  · simp [enNoteClosePat, ciStarts, lowerCh]
  · simp [enNoteClosePat, ciStarts, lowerCh]
  · simp [enNoteClosePat, ciStarts, lowerCh]
  · simp [enNoteClosePat, ciStarts, lowerCh]
  · rw [ciStarts_append_of_le _ _ _ (by simp [enNoteClosePat])]
    exact h

theorem captureTilClose_append (body : Str) (h : hasCISub enNoteClosePat body = false) :
    captureTilClose (body ++ enNoteClosePat) = some body := by
  induction body with
  | nil => decide
  | cons c cs ih =>
    rw [hasCISub, Bool.or_eq_false_iff] at h
    obtain ⟨h1, h2⟩ := h
    have hspan := ciStarts_close_span (c :: cs) (by simp) h1
    rw [List.cons_append, captureTilClose]
    rw [List.cons_append] at hspan
    simp only [hspan, Bool.false_eq_true, if_false, ih h2]

/-- C2: for every body with no case-insensitive occurrence of the
root-element opening pattern `<en-note` nor of the closing pattern
`</en-note>`, extracting the body of the wrapped document returns the
body unchanged (`unwrap (wrap body) = body`). -/
theorem C2_wrap_unwrap_roundtrip (body : Str)
    (_hopen : hasCISub enNoteOpenPat body = false)
    (hclose : hasCISub enNoteClosePat body = false) :
    extractEnmlBody (wrapEnmlBody body) = body := by
  have hcap : captureTilClose (body ++ enNoteClosePat) = some body :=
    captureTilClose_append body hclose
  have hshape : wrapEnmlBody body =
      ("<?xml version=\"1.0\" encoding=\"UTF-8\"?>\n".data ++ enmlDocType) ++
        ("<en-note>".data ++ (body ++ enNoteClosePat)) := by
    unfold wrapEnmlBody enNoteClosePat
    simp [List.append_assoc]
  rw [extractEnmlBody, hshape, extractAux_wrap_scan _ _ hcap]

theorem C2_wrap_unwrap_roundtrip_witness :
    (hasCISub enNoteOpenPat "hello <b>world</b> & more".data = false ∧
      hasCISub enNoteClosePat "hello <b>world</b> & more".data = false) ∧
    extractEnmlBody (wrapEnmlBody "hello <b>world</b> & more".data) =
      "hello <b>world</b> & more".data :=
  ⟨⟨by decide, by decide⟩,
    C2_wrap_unwrap_roundtrip "hello <b>world</b> & more".data (by decide) (by decide)⟩

/-- C1: `buildResourcesFromBinary` returns same-length, order-corresponding
resource and media-tag sequences; for each index the media tag is exactly
the reference tag carrying the hex encoding of that resource's recorded
`bodyHash`, that hash is the MD5 digest of the resource's raw byte buffer,
and that buffer is the raw buffer of the binary input at the same index. -/
theorem C1_resource_media_hash_binding (md5 : List Nat → List Nat)
    (binary : List (Str × BinaryData)) (names : List Str)
    (result : ResourceBuildResult)
    (h : buildResourcesFromBinary md5 binary names = .ok result) :
    List.Forall₂ (fun (r : EvResource) (tag : Str) =>
        tag = mediaTagFor r.mime (hexEncode r.data.bodyHash) ∧
        r.data.bodyHash = md5 r.data.body) result.resources result.mediaTags ∧
    List.Forall₂ (fun (name : Str) (r : EvResource) =>
        ∃ bd, lookupBinary binary name = some bd ∧ r.data.body = bd.buffer)
      names result.resources := by
  induction names generalizing result with
  | nil =>
    rw [buildResourcesFromBinary] at h
    cases h
    exact ⟨List.Forall₂.nil, List.Forall₂.nil⟩
  | cons n rest ih =>
    rw [buildResourcesFromBinary] at h
    cases hb : lookupBinary binary n with
    | none => rw [hb] at h; cases h
    | some bd =>
      rw [hb] at h
      cases hr : buildResourcesFromBinary md5 binary rest with
      | error e => rw [hr] at h; cases h
      | ok r0 =>
        rw [hr] at h
        cases h
        obtain ⟨ih1, ih2⟩ := ih r0 hr
        exact ⟨List.Forall₂.cons ⟨rfl, rfl⟩ ih1,
          List.Forall₂.cons ⟨bd, hb, rfl⟩ ih2⟩

theorem C1_resource_media_hash_binding_witness :
    buildResourcesFromBinary (fun l => 0 :: l)
        [("a".data, ⟨[1, 2], none, none, none⟩)] ["a".data] =
      .ok ⟨[{ data := { body := [1, 2], size := 2, bodyHash := [0, 1, 2] },
              mime := "application/octet-stream".data,
              fileName := "a".data }],
           [mediaTagFor "application/octet-stream".data (hexEncode [0, 1, 2])]⟩ ∧
    (List.Forall₂ (fun (r : EvResource) (tag : Str) =>
        tag = mediaTagFor r.mime (hexEncode r.data.bodyHash) ∧
        r.data.bodyHash = (fun l => 0 :: l) r.data.body)
      [{ data := { body := [1, 2], size := 2, bodyHash := [0, 1, 2] },
         mime := "application/octet-stream".data,
         fileName := "a".data }]
      [mediaTagFor "application/octet-stream".data (hexEncode [0, 1, 2])] ∧
     List.Forall₂ (fun (name : Str) (r : EvResource) =>
        ∃ bd, lookupBinary [("a".data, ⟨[1, 2], none, none, none⟩)] name = some bd ∧
          r.data.body = bd.buffer)
      ["a".data]
      [{ data := { body := [1, 2], size := 2, bodyHash := [0, 1, 2] },
         mime := "application/octet-stream".data,
         fileName := "a".data }]) := by
  have h : buildResourcesFromBinary (fun l => 0 :: l)
      [("a".data, ⟨[1, 2], none, none, none⟩)] ["a".data] =
      .ok ⟨[{ data := { body := [1, 2], size := 2, bodyHash := [0, 1, 2] },
              mime := "application/octet-stream".data,
              fileName := "a".data }],
           [mediaTagFor "application/octet-stream".data (hexEncode [0, 1, 2])]⟩ := by
    rfl
  exact ⟨h, C1_resource_media_hash_binding (fun l => 0 :: l) _ _ _ h⟩

theorem replaceChar_append (target : Char) (repl : Str) (a b : Str) :
    replaceChar target repl (a ++ b) =
      replaceChar target repl a ++ replaceChar target repl b := by
  induction a with
  | nil => rfl
  | cons c cs ih =>
    simp only [List.cons_append, replaceChar, List.append_eq]
    split
    · rw [ih, List.append_assoc]
    · rw [ih, List.cons_append]

theorem escapeXml_cons (c : Char) (s : Str) :
    escapeXml (c :: s) = encodePlainChar c ++ escapeXml s := by
  by_cases h1 : c = '&'
  · subst h1
    simp [escapeXml, encodePlainChar, replaceChar, replaceChar_append]
  · by_cases h2 : c = '<'
    · subst h2
      simp [escapeXml, encodePlainChar, replaceChar, replaceChar_append]
    · by_cases h3 : c = '>'
      · subst h3
        simp [escapeXml, encodePlainChar, replaceChar, replaceChar_append]
      · by_cases h4 : c = '"'
        · subst h4
          simp [escapeXml, encodePlainChar, replaceChar, replaceChar_append]
        · simp [escapeXml, encodePlainChar, replaceChar, h1, h2, h3, h4]

theorem escapeXml_no_nl_head (s : Str) (h : ∀ u : Str, s ≠ '\n' :: u) :
    ∀ u : Str, escapeXml s ≠ '\n' :: u := by
  cases s with
  | nil => intro u hu; simp [escapeXml, replaceChar] at hu
  | cons d ds =>
    intro u hu
    rw [escapeXml_cons] at hu
    by_cases h1 : d = '&'
    · subst h1; simp [encodePlainChar] at hu
    · by_cases h2 : d = '<'
      · subst h2; simp [encodePlainChar] at hu
      · by_cases h3 : d = '>'
        · subst h3; simp [encodePlainChar] at hu
        · by_cases h4 : d = '"'
          · subst h4; simp [encodePlainChar] at hu
          · have hd : d ≠ '\n' := by
              intro hd; exact h ds (by rw [hd])
            simp [encodePlainChar, h1, h2, h3, h4] at hu
            exact hd hu.1

theorem convertNewlines_cr (s : Str) (h : ∀ u : Str, s ≠ '\n' :: u) :
    convertNewlines ('\r' :: s) = '\r' :: convertNewlines s := by
  cases s with
  | nil => rfl
  | cons c cs =>
    have hc : c ≠ '\n' := by
      intro hc; exact h cs (by rw [hc])
    simp [convertNewlines, hc]

theorem convertNewlines_escapeXml (t : Str) :
    convertNewlines (escapeXml t) = encodePlain t := by
  induction t using encodePlain.induct with
  | case1 => rfl
  | case2 rest ih =>
    rw [escapeXml_cons, escapeXml_cons]
    simp [encodePlainChar, convertNewlines, encodePlain, ih]
  | case3 rest ih =>
    rw [escapeXml_cons]
    simp [encodePlainChar, convertNewlines, encodePlain, ih]
  | case4 c rest h1 h2 ih =>
    rw [escapeXml_cons, encodePlain]
    · by_cases hamp : c = '&'
      · subst hamp; simp [encodePlainChar, convertNewlines, ih]
      · by_cases hlt : c = '<'
        · subst hlt; simp [encodePlainChar, convertNewlines, ih]
        · by_cases hgt : c = '>'
          · subst hgt; simp [encodePlainChar, convertNewlines, ih]
          · by_cases hq : c = '"'
            · subst hq; simp [encodePlainChar, convertNewlines, ih]
            · have hn : c ≠ '\n' := fun hc => h2 hc
              simp only [encodePlainChar, hamp, hlt, hgt, hq, if_false,
                List.singleton_append]
              by_cases hcr : c = '\r'
              · subst hcr
                rw [convertNewlines_cr (escapeXml rest)
                  (escapeXml_no_nl_head rest (fun u hu => h1 u rfl hu)), ih]
              · simp [convertNewlines, hcr, hn, ih]
    · exact h1
    · exact h2

/-- C8: `plainTextToEnml` equals the single-pass encoding that escapes the
XML metacharacters `&`, `<`, `>`, `"` into entities, turns each `\n` or
`\r\n` line break into one `<br />` inline break element, wraps the result
in one `<div>` block container and then in the document shell; concretely
the example input produces the body
`<div>&lt;a &amp; b&gt;<br />line2</div>`. -/
theorem C8_plaintext_escaping (text : Str) :
    plainTextToEnml text =
      wrapEnmlBody ("<div>".data ++ encodePlain text ++ "</div>".data) ∧
    plainTextToEnml "<a & b>\nline2".data =
      wrapEnmlBody "<div>&lt;a &amp; b&gt;<br />line2</div>".data := by
  constructor
  · unfold plainTextToEnml
    rw [convertNewlines_escapeXml]
  · rfl

theorem updateOp_ok_inv (ext : Externals) (params : UpdateParams) (env : Env)
    (calls : List ServiceCall) (payload : NotePayload)
    (h : updateOp ext params env = (calls, .ok payload)) :
    ∃ ares content0 merged,
      attachStep ext.md5 env.binary params.addAttachments params.binaryPropertyNames =
        .ok ares ∧
      updateModeContent ext params (fetchedNoteFor params env) = .ok content0 ∧
      computeAttributes ext.parseJson params.attributesJson params.noteAttributesUi =
        .ok merged ∧
      payload =
        { guid := params.noteGuid,
          title := if params.titleUpdate ≠ [] then params.titleUpdate else env.existingTitle,
          content := applyMediaTags ares content0,
          tagNames := if params.tagsMode ≠ "ignore".data then some (tagStep params env).2 else none,
          resources := Option.map ResourceBuildResult.resources ares,
          notebookGuid :=
            if params.notebookGuidUpdate ≠ [] then some params.notebookGuidUpdate else none,
          attributes := if merged ≠ [] then some merged else none } ∧
      calls = ServiceCall.getNote params.noteGuid (fetchWithContent params) ::
        ((tagStep params env).1 ++ [ServiceCall.updateNote payload]) := by
  unfold updateOp at h
  cases hA : attachStep ext.md5 env.binary params.addAttachments params.binaryPropertyNames with
  | error e => rw [hA] at h; simp at h
  | ok ares =>
    rw [hA] at h
    dsimp only at h
    cases hC : updateModeContent ext params (fetchedNoteFor params env) with
    | error e => rw [hC] at h; simp at h
    | ok content0 =>
      rw [hC] at h
      dsimp only at h
      cases hM : computeAttributes ext.parseJson params.attributesJson params.noteAttributesUi with
      | error e => rw [hM] at h; simp at h
      | ok merged =>
        rw [hM] at h
        dsimp only [fetchedNoteFor] at h
        obtain ⟨hcalls, hpay⟩ := Prod.mk.injEq _ _ _ _ ▸ h
        cases hpay
        exact ⟨ares, content0, merged, rfl, rfl, rfl, rfl, hcalls.symm ▸ rfl⟩

/-- C10: every successful update sends a present title: the `titleUpdate`
parameter when non-empty, otherwise the fetched existing title; when the
existing title is non-empty the sent title is never empty, so an empty
`titleUpdate` leaves the title unchanged rather than clearing it. -/
theorem C10_update_title_present (ext : Externals) (params : UpdateParams) (env : Env)
    (calls : List ServiceCall) (payload : NotePayload)
    (h : updateOp ext params env = (calls, .ok payload)) :
    payload.title =
      (if params.titleUpdate ≠ [] then params.titleUpdate else env.existingTitle) ∧
    (env.existingTitle ≠ [] → payload.title ≠ []) := by
  obtain ⟨ares, content0, merged, _, _, _, hpay, _⟩ :=
    updateOp_ok_inv ext params env calls payload h
  subst hpay
  refine ⟨rfl, fun hne => ?_⟩
  by_cases ht : params.titleUpdate = []
  · simp [ht, hne]
  · simp [ht]

theorem C10_update_title_present_witness :
    updateOp plainExternals baseUpdateParams baseEnv =
      ([ServiceCall.getNote "guid1".data true,
        ServiceCall.updateNote
          { guid := "guid1".data, title := "Old Title".data,
            content := wrapEnmlBody "<div>old</div>".data,
            tagNames := none, resources := none, notebookGuid := none,
            attributes := none }],
        .ok { guid := "guid1".data, title := "Old Title".data,
              content := wrapEnmlBody "<div>old</div>".data,
              tagNames := none, resources := none, notebookGuid := none,
              attributes := none }) ∧
    ({ guid := "guid1".data, title := "Old Title".data,
       content := wrapEnmlBody "<div>old</div>".data,
       tagNames := none, resources := none, notebookGuid := none,
       attributes := none } : NotePayload).title =
      (if baseUpdateParams.titleUpdate ≠ [] then baseUpdateParams.titleUpdate
        else baseEnv.existingTitle) ∧
    (baseEnv.existingTitle ≠ [] →
      ({ guid := "guid1".data, title := "Old Title".data,
         content := wrapEnmlBody "<div>old</div>".data,
         tagNames := none, resources := none, notebookGuid := none,
         attributes := none } : NotePayload).title ≠ []) :=
  have h : updateOp plainExternals baseUpdateParams baseEnv =
      ([ServiceCall.getNote "guid1".data true,
        ServiceCall.updateNote
          { guid := "guid1".data, title := "Old Title".data,
            content := wrapEnmlBody "<div>old</div>".data,
            tagNames := none, resources := none, notebookGuid := none,
            attributes := none }],
        .ok { guid := "guid1".data, title := "Old Title".data,
              content := wrapEnmlBody "<div>old</div>".data,
              tagNames := none, resources := none, notebookGuid := none,
              attributes := none }) := by rfl
  ⟨h, C10_update_title_present plainExternals baseUpdateParams baseEnv _ _ h⟩

theorem updateModeContent_replace (ext : Externals) (params : UpdateParams)
    (hmode : params.contentEditingMode = "replace".data) (note : FetchedNote) :
    updateModeContent ext params note = .ok (encodeInput ext.sanitize params) := by
  unfold updateModeContent
  rw [hmode]
  rw [if_neg (by decide : ¬ (("replace".data : Str) = "keep".data))]
  rw [if_pos rfl]

/-- C9: in replace mode the update's outcome — the calls issued and the
error or payload produced — is independent of the stored note's content
(the same for any two environments differing only in `existingContent`),
and without attachments the sent body is exactly the newly encoded input
(plain-text or sanitized-HTML path), discarding the prior body. -/
theorem C9_replace_mode_frame (ext : Externals) (params : UpdateParams) (env : Env)
    (hmode : params.contentEditingMode = "replace".data) :
    (∀ c' : Option Str,
      updateOp ext params { env with existingContent := c' } = updateOp ext params env) ∧
    (params.addAttachments = false →
      ∀ calls payload, updateOp ext params env = (calls, .ok payload) →
        payload.content = encodeInput ext.sanitize params) := by
  constructor
  · intro c'
    unfold updateOp
    simp only [updateModeContent_replace ext params hmode]
    rfl
  · intro haa calls payload h
    obtain ⟨ares, content0, merged, hA, hC, _, hpay, _⟩ :=
      updateOp_ok_inv ext params env calls payload h
    rw [updateModeContent_replace ext params hmode] at hC
    cases hC
    rw [attachStep, haa] at hA
    simp only [Bool.false_eq_true, if_false] at hA
    cases hA
    subst hpay
    rfl

theorem C9_replace_mode_frame_witness :
    ({ baseUpdateParams with
        contentEditingMode := "replace".data } : UpdateParams).contentEditingMode =
      "replace".data ∧
    ((∀ c' : Option Str,
      updateOp plainExternals { baseUpdateParams with contentEditingMode := "replace".data }
          { baseEnv with existingContent := c' } =
        updateOp plainExternals { baseUpdateParams with contentEditingMode := "replace".data }
          baseEnv) ∧
    (({ baseUpdateParams with
        contentEditingMode := "replace".data } : UpdateParams).addAttachments = false →
      ∀ calls payload,
        updateOp plainExternals { baseUpdateParams with contentEditingMode := "replace".data }
            baseEnv = (calls, .ok payload) →
        payload.content =
          encodeInput plainExternals.sanitize
            { baseUpdateParams with contentEditingMode := "replace".data })) :=
  ⟨rfl, C9_replace_mode_frame plainExternals
    { baseUpdateParams with contentEditingMode := "replace".data } baseEnv rfl⟩

/-- C5: on a successful update, whenever media tags were built (the
attachment step produced a non-empty tag list) the sent body is the
mode-specific content rewrapped with the reference tags appended in build
order — in every content editing mode, Keep included — and with no
attachment result or an empty tag list the sent body is exactly the
mode-specific content with nothing appended. -/
theorem C5_media_tags_after_mode (ext : Externals) (params : UpdateParams) (env : Env)
    (calls : List ServiceCall) (payload : NotePayload)
    (ares : Option ResourceBuildResult) (content0 : Str)
    (h : updateOp ext params env = (calls, .ok payload))
    (hA : attachStep ext.md5 env.binary params.addAttachments params.binaryPropertyNames =
      .ok ares)
    (hC : updateModeContent ext params (fetchedNoteFor params env) = .ok content0) :
    (∀ r, ares = some r → r.mediaTags ≠ [] →
      payload.content = wrapEnmlBody (extractEnmlBody content0 ++ r.mediaTags.flatten)) ∧
    (∀ r, ares = some r → r.mediaTags = [] → payload.content = content0) ∧
    (ares = none → payload.content = content0) := by
  obtain ⟨ares', content0', merged, hA', hC', _, hpay, _⟩ :=
    updateOp_ok_inv ext params env calls payload h
  rw [hA] at hA'
  cases hA'
  rw [hC] at hC'
  cases hC'
  subst hpay
  refine ⟨fun r hr hne => ?_, fun r hr he => ?_, fun hn => ?_⟩
  · subst hr; simp [applyMediaTags, hne]
  · subst hr; simp [applyMediaTags, he]
  · subst hn; rfl

theorem C5_media_tags_after_mode_witness :
    updateOp plainExternals
        { baseUpdateParams with addAttachments := true }
        { baseEnv with
            binary := [("data".data, ⟨[1, 2], some "image/png".data, none, none⟩)] } =
      ([ServiceCall.getNote "guid1".data true,
        ServiceCall.updateNote
          { guid := "guid1".data, title := "Old Title".data,
            content := wrapEnmlBody ("<div>old</div>".data ++
              mediaTagFor "image/png".data (hexEncode [1, 2])),
            tagNames := none,
            resources := some [{ data := { body := [1, 2], size := 2, bodyHash := [1, 2] },
                                 mime := "image/png".data, fileName := "data".data }],
            notebookGuid := none, attributes := none }],
        .ok { guid := "guid1".data, title := "Old Title".data,
              content := wrapEnmlBody ("<div>old</div>".data ++
                mediaTagFor "image/png".data (hexEncode [1, 2])),
              tagNames := none,
              resources := some [{ data := { body := [1, 2], size := 2, bodyHash := [1, 2] },
                                   mime := "image/png".data, fileName := "data".data }],
              notebookGuid := none, attributes := none }) ∧
    ({ guid := "guid1".data, title := "Old Title".data,
       content := wrapEnmlBody ("<div>old</div>".data ++
         mediaTagFor "image/png".data (hexEncode [1, 2])),
       tagNames := none,
       resources := some [{ data := { body := [1, 2], size := 2, bodyHash := [1, 2] },
                            mime := "image/png".data, fileName := "data".data }],
       notebookGuid := none, attributes := none } : NotePayload).content =
      wrapEnmlBody
        (extractEnmlBody (wrapEnmlBody "<div>old</div>".data) ++
          [mediaTagFor "image/png".data (hexEncode [1, 2])].flatten) := by
  have h : updateOp plainExternals
      { baseUpdateParams with addAttachments := true }
      { baseEnv with
          binary := [("data".data, ⟨[1, 2], some "image/png".data, none, none⟩)] } =
      ([ServiceCall.getNote "guid1".data true,
        ServiceCall.updateNote
          { guid := "guid1".data, title := "Old Title".data,
            content := wrapEnmlBody ("<div>old</div>".data ++
              mediaTagFor "image/png".data (hexEncode [1, 2])),
            tagNames := none,
            resources := some [{ data := { body := [1, 2], size := 2, bodyHash := [1, 2] },
                                 mime := "image/png".data, fileName := "data".data }],
            notebookGuid := none, attributes := none }],
        .ok { guid := "guid1".data, title := "Old Title".data,
              content := wrapEnmlBody ("<div>old</div>".data ++
                mediaTagFor "image/png".data (hexEncode [1, 2])),
              tagNames := none,
              resources := some [{ data := { body := [1, 2], size := 2, bodyHash := [1, 2] },
                                   mime := "image/png".data, fileName := "data".data }],
              notebookGuid := none, attributes := none }) := by
    rfl
  exact ⟨h,
    (C5_media_tags_after_mode plainExternals _ _ _ _
      (some ⟨[{ data := { body := [1, 2], size := 2, bodyHash := [1, 2] },
                mime := "image/png".data, fileName := "data".data }],
             [mediaTagFor "image/png".data (hexEncode [1, 2])]⟩)
      (wrapEnmlBody "<div>old</div>".data) h rfl rfl).1
      ⟨[{ data := { body := [1, 2], size := 2, bodyHash := [1, 2] },
          mime := "image/png".data, fileName := "data".data }],
        [mediaTagFor "image/png".data (hexEncode [1, 2])]⟩ rfl (by decide)⟩

theorem trimStr_eq_rdropWhile (s : Str) :
    trimStr s = List.rdropWhile isJsSpace (s.dropWhile isJsSpace) := rfl

theorem trimStr_idem (s : Str) : trimStr (trimStr s) = trimStr s := by
  have ha : List.dropWhile isJsSpace (s.dropWhile isJsSpace) = s.dropWhile isJsSpace :=
    List.dropWhile_idempotent _ _
  have hpre : List.rdropWhile isJsSpace (s.dropWhile isJsSpace) <+: s.dropWhile isJsSpace :=
    List.rdropWhile_prefix _ _
  have hb : List.dropWhile isJsSpace (trimStr s) = trimStr s := by
    rw [trimStr_eq_rdropWhile]
    rcases hx : List.rdropWhile isJsSpace (s.dropWhile isJsSpace) with _ | ⟨c, bs⟩
    · simp
    · rw [hx] at hpre
      obtain ⟨t, ht⟩ := hpre
      have hc : isJsSpace c = false := by
        by_cases hpc : isJsSpace c = true
        · exfalso
          rw [← ht, List.cons_append, List.dropWhile_cons, if_pos hpc] at ha
          have hlen := congrArg List.length ha
          have hle := (List.dropWhile_suffix (l := bs ++ t) isJsSpace).length_le
          simp only [List.length_cons, List.length_append] at hlen hle
          omega
        · simpa using hpc
      rw [List.dropWhile_cons, hc]
      simp
  calc trimStr (trimStr s)
      = List.rdropWhile isJsSpace (List.dropWhile isJsSpace (trimStr s)) := rfl
    _ = List.rdropWhile isJsSpace (trimStr s) := by rw [hb]
    _ = trimStr s := by
        rw [trimStr_eq_rdropWhile]
        exact List.rdropWhile_idempotent _ _

theorem splitTags_mem_trimmed (raw t : Str) (h : t ∈ splitTags raw) :
    trimStr t = t ∧ t ≠ [] := by
  unfold splitTags at h
  rw [List.mem_filter] at h
  obtain ⟨hmem, hne⟩ := h
  rw [List.mem_map] at hmem
  obtain ⟨u, _, hu⟩ := hmem
  refine ⟨?_, by simpa using hne⟩
  rw [← hu]
  exact trimStr_idem u

theorem dedupGo_mem (l : List Str) : ∀ (seen : List Str) (x : Str),
    x ∈ dedupGo seen l ↔ x ∈ l ∧ x ∉ seen := by
  induction l with
  | nil => intro seen x; simp [dedupGo]
  | cons a as ih =>
    intro seen x
    rw [dedupGo]
    by_cases ha : a ∈ seen
    · rw [if_pos ha, ih]
      constructor
      · exact fun ⟨h1, h2⟩ => ⟨List.mem_cons_of_mem a h1, h2⟩
      · rintro ⟨h1, h2⟩
        rcases List.mem_cons.mp h1 with rfl | h1
        · exact absurd ha h2
        · exact ⟨h1, h2⟩
    · rw [if_neg ha]
      rw [List.mem_cons, ih]
      constructor
      · rintro (rfl | ⟨h1, h2⟩)
        · exact ⟨List.mem_cons_self _ _, ha⟩
        · refine ⟨List.mem_cons_of_mem a h1, fun hx => h2 ?_⟩
          simp [hx]
      · rintro ⟨h1, h2⟩
        rcases List.mem_cons.mp h1 with rfl | h1
        · exact Or.inl rfl
        · by_cases hxa : x = a
          · exact Or.inl hxa
          · refine Or.inr ⟨h1, fun hx => ?_⟩
            simp [hxa] at hx
            exact h2 hx

theorem dedupGo_nodup (l : List Str) : ∀ seen : List Str, (dedupGo seen l).Nodup := by
  induction l with
  | nil => intro seen; simp [dedupGo]
  | cons a as ih =>
    intro seen
    rw [dedupGo]
    by_cases ha : a ∈ seen
    · rw [if_pos ha]; exact ih seen
    · rw [if_neg ha]
      refine List.nodup_cons.mpr ⟨fun hmem => ?_, ih (seen ++ [a])⟩
      rw [dedupGo_mem] at hmem
      exact hmem.2 (by simp)

theorem jsSetDedup_mem (l : List Str) (x : Str) : x ∈ jsSetDedup l ↔ x ∈ l := by
  rw [jsSetDedup, dedupGo_mem]
  simp

theorem jsSetDedup_nodup (l : List Str) : (jsSetDedup l).Nodup := dedupGo_nodup l []

theorem requestedTags_of_ne (params : UpdateParams)
    (hm : params.tagsMode ≠ "ignore".data) :
    requestedTags params = splitTags params.tags := by
  unfold requestedTags
  rw [if_pos hm]

theorem tagStep_replace (params : UpdateParams) (env : Env)
    (hm : params.tagsMode = "replace".data) :
    tagStep params env = ([], splitTags params.tags) := by
  unfold tagStep
  rw [hm, if_neg (by decide : ¬ (("replace".data : Str) = "add".data)),
    if_neg (by decide : ¬ (("replace".data : Str) = "remove".data)),
    requestedTags_of_ne params (by rw [hm]; decide)]

theorem tagStep_add (params : UpdateParams) (env : Env)
    (hm : params.tagsMode = "add".data) :
    tagStep params env = ([ServiceCall.getNoteTagNames params.noteGuid],
      jsSetDedup (env.existingTagNames ++ splitTags params.tags)) := by
  unfold tagStep
  rw [hm, if_pos rfl, requestedTags_of_ne params (by rw [hm]; decide)]

theorem tagStep_remove (params : UpdateParams) (env : Env)
    (hm : params.tagsMode = "remove".data) :
    tagStep params env = ([ServiceCall.getNoteTagNames params.noteGuid],
      env.existingTagNames.filter (fun tag => !((splitTags params.tags).contains tag))) := by
  unfold tagStep
  rw [hm, if_neg (by decide : ¬ (("remove".data : Str) = "add".data)), if_pos rfl,
    requestedTags_of_ne params (by rw [hm]; decide)]

/-- C4 (amended): on a successful update the tag reconciliation yields: in
Replace mode the requested list trimmed with empties dropped — duplicates
preserved, not deduplicated; in Add mode the deduplicated insertion-ordered
union of the existing tag set and the requested list; in Remove mode the
existing tag set minus any name present in the requested list; and in
Ignore mode no tag field in the update payload at all. -/
theorem C4_tag_mode_reconciliation (ext : Externals) (params : UpdateParams) (env : Env)
    (calls : List ServiceCall) (payload : NotePayload)
    (h : updateOp ext params env = (calls, .ok payload)) :
    (params.tagsMode = "replace".data →
      payload.tagNames = some (splitTags params.tags) ∧
      ∀ t, t ∈ splitTags params.tags → trimStr t = t ∧ t ≠ []) ∧
    (params.tagsMode = "add".data →
      payload.tagNames = some (jsSetDedup (env.existingTagNames ++ splitTags params.tags)) ∧
      (jsSetDedup (env.existingTagNames ++ splitTags params.tags)).Nodup ∧
      ∀ t, t ∈ jsSetDedup (env.existingTagNames ++ splitTags params.tags) ↔
        t ∈ env.existingTagNames ∨ t ∈ splitTags params.tags) ∧
    (params.tagsMode = "remove".data →
      payload.tagNames =
        some (env.existingTagNames.filter (fun tag => !((splitTags params.tags).contains tag))) ∧
      ∀ t, t ∈ env.existingTagNames.filter (fun tag => !((splitTags params.tags).contains tag)) ↔
        t ∈ env.existingTagNames ∧ t ∉ splitTags params.tags) ∧
    (params.tagsMode = "ignore".data → payload.tagNames = none) := by
  obtain ⟨ares, content0, merged, _, _, _, hpay, _⟩ :=
    updateOp_ok_inv ext params env calls payload h
  subst hpay
  refine ⟨fun hm => ⟨?_, fun t ht => splitTags_mem_trimmed params.tags t ht⟩,
    fun hm => ⟨?_, jsSetDedup_nodup _, fun t => ?_⟩,
    fun hm => ⟨?_, fun t => ?_⟩, fun hm => ?_⟩
  · show (if params.tagsMode ≠ "ignore".data then some (tagStep params env).2 else none) = _
    rw [tagStep_replace params env hm, if_pos (by rw [hm]; decide)]
  · show (if params.tagsMode ≠ "ignore".data then some (tagStep params env).2 else none) = _
    rw [tagStep_add params env hm, if_pos (by rw [hm]; decide)]
  · rw [jsSetDedup_mem, List.mem_append]
  · show (if params.tagsMode ≠ "ignore".data then some (tagStep params env).2 else none) = _
    rw [tagStep_remove params env hm, if_pos (by rw [hm]; decide)]
  · rw [List.mem_filter]
    constructor
    · rintro ⟨h1, h2⟩
      refine ⟨h1, fun hmem => ?_⟩
      simp only [List.contains, Bool.not_eq_true'] at h2
      rw [List.elem_eq_mem, decide_eq_false_iff_not] at h2
      exact h2 hmem
    · rintro ⟨h1, h2⟩
      refine ⟨h1, ?_⟩
      simp only [List.contains, Bool.not_eq_true']
      rw [List.elem_eq_mem, decide_eq_false_iff_not]
      exact h2
  · show (if params.tagsMode ≠ "ignore".data then some (tagStep params env).2 else none) = _
    rw [if_neg (by rw [hm]; decide)]

/-- C4 counterexample: in Replace mode with requested tag string `"b,b"`
the update payload carries the duplicate list `["b", "b"]` — the requested
list is not deduplicated, contradicting the claim's "requested list
deduplicated" for Replace mode. -/
theorem C4_tag_mode_reconciliation_counterexample :
    (updateOp plainExternals
        { baseUpdateParams with tagsMode := "replace".data, tags := "b,b".data }
        baseEnv).2 =
      .ok { guid := "guid1".data, title := "Old Title".data,
            content := wrapEnmlBody "<div>old</div>".data,
            tagNames := some ["b".data, "b".data],
            resources := none, notebookGuid := none, attributes := none } ∧
    jsSetDedup (splitTags "b,b".data) = ["b".data] ∧
    some ["b".data, "b".data] ≠ some [("b".data : Str)] :=
  ⟨by rfl, by rfl, by decide⟩

theorem C4_tag_mode_reconciliation_witness :
    updateOp plainExternals
        { baseUpdateParams with tagsMode := "add".data, tags := "b,c".data } baseEnv =
      ([ServiceCall.getNote "guid1".data true,
        ServiceCall.getNoteTagNames "guid1".data,
        ServiceCall.updateNote
          { guid := "guid1".data, title := "Old Title".data,
            content := wrapEnmlBody "<div>old</div>".data,
            tagNames := some ["a".data, "b".data, "c".data],
            resources := none, notebookGuid := none, attributes := none }],
        .ok { guid := "guid1".data, title := "Old Title".data,
              content := wrapEnmlBody "<div>old</div>".data,
              tagNames := some ["a".data, "b".data, "c".data],
              resources := none, notebookGuid := none, attributes := none }) ∧
    ({ guid := "guid1".data, title := "Old Title".data,
       content := wrapEnmlBody "<div>old</div>".data,
       tagNames := some ["a".data, "b".data, "c".data],
       resources := none, notebookGuid := none, attributes := none } : NotePayload).tagNames =
      some (jsSetDedup (baseEnv.existingTagNames ++ splitTags "b,c".data)) :=
  have h : updateOp plainExternals
      { baseUpdateParams with tagsMode := "add".data, tags := "b,c".data } baseEnv =
      ([ServiceCall.getNote "guid1".data true,
        ServiceCall.getNoteTagNames "guid1".data,
        ServiceCall.updateNote
          { guid := "guid1".data, title := "Old Title".data,
            content := wrapEnmlBody "<div>old</div>".data,
            tagNames := some ["a".data, "b".data, "c".data],
            resources := none, notebookGuid := none, attributes := none }],
        .ok { guid := "guid1".data, title := "Old Title".data,
              content := wrapEnmlBody "<div>old</div>".data,
              tagNames := some ["a".data, "b".data, "c".data],
              resources := none, notebookGuid := none, attributes := none }) := by rfl
  ⟨h, ((C4_tag_mode_reconciliation plainExternals
      { baseUpdateParams with tagsMode := "add".data, tags := "b,c".data }
      baseEnv _ _ h).2.1 rfl).1⟩

theorem lookupStr_setKey (l : List (Str × Str)) (k2 v2 k : Str) :
    lookupStr (setKey l (k2, v2)) k = if k = k2 then some v2 else lookupStr l k := by
  induction l with
  | nil =>
    simp only [setKey, lookupStr]
    by_cases h : k = k2
    · rw [if_pos (show k2 = k from h.symm), if_pos h]
    · rw [if_neg (show ¬ k2 = k from fun hh => h hh.symm), if_neg h]
  | cons kv rest ih =>
    obtain ⟨k0, v0⟩ := kv
    simp only [setKey]
    by_cases h0 : k0 = k2
    · subst h0
      rw [if_pos rfl]
      simp only [lookupStr]
      by_cases hk : k0 = k
      · rw [if_pos hk, if_pos (show k = k0 from hk.symm)]
      · rw [if_neg hk, if_neg (show ¬ k = k0 from fun hh => hk hh.symm), if_neg hk]
    · rw [if_neg (show ¬ (k0, v0).1 = k2 from h0)]
      simp only [lookupStr, ih]
      by_cases hk : k0 = k
      · subst hk
        have hkk : ¬ k0 = k2 := h0
        simp [hkk]
      · simp [hk]

theorem lookupStr_eq_none_of_not_mem (l : List (Str × Str)) (k : Str)
    (h : k ∉ l.map Prod.fst) : lookupStr l k = none := by
  induction l with
  | nil => rfl
  | cons kv rest ih =>
    obtain ⟨k0, v0⟩ := kv
    simp only [List.map_cons, List.mem_cons] at h
    push_neg at h
    simp only [lookupStr]
    rw [if_neg (fun hh => h.1 hh.symm)]
    exact ih h.2

theorem lookupStr_objAssign (src : List (Str × Str)) :
    ∀ (target : List (Str × Str)) (k : Str), (src.map Prod.fst).Nodup →
    lookupStr (objAssign target src) k =
      (match lookupStr src k with
       | some v => some v
       | none => lookupStr target k) := by
  induction src with
  | nil => intro target k _; rfl
  | cons kv s ih =>
    intro target k hnd
    obtain ⟨k1, v1⟩ := kv
    simp only [List.map_cons, List.nodup_cons] at hnd
    obtain ⟨hk1, hnd⟩ := hnd
    show lookupStr (objAssign (setKey target (k1, v1)) s) k = _
    rw [ih (setKey target (k1, v1)) k hnd]
    simp only [lookupStr]
    by_cases hkk : k1 = k
    · subst hkk
      rw [if_pos rfl]
      rw [lookupStr_eq_none_of_not_mem s k1 hk1]
      rw [lookupStr_setKey, if_pos rfl]
    · rw [if_neg hkk]
      cases hs : lookupStr s k with
      | some v => rfl
      | none =>
        rw [lookupStr_setKey, if_neg (fun hh => hkk hh.symm)]

theorem computeAttributes_error_iff (parseJson : Str → Option (List (Str × Str)))
    (attributesJson : Str) (ui : List (Str × Str)) (e : Err) :
    computeAttributes parseJson attributesJson ui = .error e ↔
      (e = .invalidJsonAttributes ∧ attributesJson ≠ [] ∧ parseJson attributesJson = none) := by
  unfold computeAttributes parseAttributesJson
  by_cases hj : attributesJson = []
  · simp [hj]
  · rw [if_pos hj]
    cases hp : parseJson attributesJson with
    | none => simp [hp, hj, eq_comm]
    | some parsed => simp [hp, hj]

theorem updateOp_error_iff (ext : Externals) (params : UpdateParams) (env : Env)
    (ares : Option ResourceBuildResult) (e : Err)
    (hA : attachStep ext.md5 env.binary params.addAttachments params.binaryPropertyNames =
      .ok ares) :
    (updateOp ext params env).2 = .error e ↔
      (updateModeContent ext params (fetchedNoteFor params env) = .error e ∨
        (∃ content0, updateModeContent ext params (fetchedNoteFor params env) = .ok content0 ∧
          computeAttributes ext.parseJson params.attributesJson params.noteAttributesUi =
            .error e)) := by
  unfold updateOp
  rw [hA]
  dsimp only
  cases hC : updateModeContent ext params (fetchedNoteFor params env) with
  | error e' => simp [hC]
  | ok content0 =>
    dsimp only
    cases hM : computeAttributes ext.parseJson params.attributesJson params.noteAttributesUi with
    | error e2 => simp [hM]
    | ok merged => simp [hM]

theorem tagStep_no_update_call (params : UpdateParams) (env : Env) (p : NotePayload) :
    ServiceCall.updateNote p ∉ (tagStep params env).1 := by
  unfold tagStep
  split_ifs <;> simp

theorem updateOp_error_no_update_call (ext : Externals) (params : UpdateParams) (env : Env)
    (e : Err) (h : (updateOp ext params env).2 = .error e) :
    ∀ p, ServiceCall.updateNote p ∉ (updateOp ext params env).1 := by
  intro p
  unfold updateOp at h ⊢
  cases hA : attachStep ext.md5 env.binary params.addAttachments params.binaryPropertyNames with
  | error e' => simp
  | ok ares =>
    rw [hA] at h
    dsimp only at h ⊢
    cases hC : updateModeContent ext params (fetchedNoteFor params env) with
    | error e' => simp
    | ok content0 =>
      rw [hC] at h
      dsimp only at h ⊢
      cases hM : computeAttributes ext.parseJson params.attributesJson params.noteAttributesUi with
      | error e2 =>
        dsimp only
        intro hmem
        rcases List.mem_append.mp hmem with h1 | h2
        · simp at h1
        · exact tagStep_no_update_call params env p h2
      | ok merged =>
        rw [hM] at h
        simp at h

theorem lookupStr_nil (k : Str) : lookupStr [] k = none := rfl

/-- C6: the attribute merge parses the optional JSON first — a non-empty
JSON text the parser rejects fails the item with the validation error, and
that is the only error this step can raise — then overlays the structured
fields on top, so a structured field wins on every key collision; the
update and create payloads carry the merged set, and when the merged set
is empty no attributes field is present in the payload at all. -/
theorem C6_attribute_merge (ext : Externals) (json : Str) (ui : List (Str × Str)) :
    (∀ e, computeAttributes ext.parseJson json ui = .error e ↔
      (e = .invalidJsonAttributes ∧ json ≠ [] ∧ ext.parseJson json = none)) ∧
    (∀ merged, computeAttributes ext.parseJson json ui = .ok merged →
      (ui.map Prod.fst).Nodup →
      ((∀ parsed, json ≠ [] → ext.parseJson json = some parsed →
          (parsed.map Prod.fst).Nodup →
          ∀ k, lookupStr merged k =
            (match lookupStr ui k with
             | some v => some v
             | none => lookupStr parsed k)) ∧
        (json = [] → ∀ k, lookupStr merged k = lookupStr ui k))) ∧
    (∀ (params : UpdateParams) env calls payload merged,
      params.attributesJson = json → params.noteAttributesUi = ui →
      updateOp ext params env = (calls, .ok payload) →
      computeAttributes ext.parseJson json ui = .ok merged →
      payload.attributes = (if merged ≠ [] then some merged else none)) ∧
    (∀ (params : UpdateParams) env ares content0,
      params.attributesJson = json → params.noteAttributesUi = ui →
      attachStep ext.md5 env.binary params.addAttachments params.binaryPropertyNames =
        .ok ares →
      updateModeContent ext params (fetchedNoteFor params env) = .ok content0 →
      ((updateOp ext params env).2 = .error .invalidJsonAttributes ↔
        (json ≠ [] ∧ ext.parseJson json = none))) ∧
    (∀ (cparams : CreateParams) env payload merged,
      cparams.attributesJson = json → cparams.noteAttributesUi = ui →
      createOp ext cparams env = .ok payload →
      computeAttributes ext.parseJson json ui = .ok merged →
      payload.attributes = (if merged ≠ [] then some merged else none)) := by
  refine ⟨computeAttributes_error_iff ext.parseJson json ui, ?_, ?_, ?_, ?_⟩
  · intro merged hm hndui
    unfold computeAttributes parseAttributesJson at hm
    constructor
    · intro parsed hj hp hndp k
      rw [if_pos hj, hp] at hm
      dsimp only at hm
      cases hm
      by_cases hui : ui ≠ []
      · rw [if_pos hui, lookupStr_objAssign ui _ k hndui,
          lookupStr_objAssign parsed _ k hndp]
        cases lookupStr ui k with
        | some v => rfl
        | none =>
          cases lookupStr parsed k with
          | some w => rfl
          | none => rfl
      · rw [if_neg hui, lookupStr_objAssign parsed _ k hndp]
        rw [not_not] at hui
        subst hui
        rw [lookupStr_nil]
        cases lookupStr parsed k with
        | some w => rfl
        | none => rfl
    · intro hj k
      rw [if_neg (by simpa using hj)] at hm
      dsimp only at hm
      cases hm
      by_cases hui : ui ≠ []
      · rw [if_pos hui, lookupStr_objAssign ui _ k hndui, lookupStr_nil]
        cases lookupStr ui k with
        | some v => rfl
        | none => rfl
      · rw [if_neg hui]
        rw [not_not] at hui
        subst hui
        rfl
  · intro params env calls payload merged hj hui h hm
    obtain ⟨ares, content0, merged', _, _, hM, hpay, _⟩ :=
      updateOp_ok_inv ext params env calls payload h
    rw [hj, hui, hm] at hM
    cases hM
    subst hpay
    rfl
  · intro params env ares content0 hj hui hA hC
    rw [updateOp_error_iff ext params env ares Err.invalidJsonAttributes hA]
    rw [hC]
    constructor
    · rintro (hbad | ⟨c0, hc0, herr⟩)
      · cases hbad
      · rw [hj, hui, computeAttributes_error_iff] at herr
        exact herr.2
    · rintro ⟨hjne, hpn⟩
      refine Or.inr ⟨content0, rfl, ?_⟩
      rw [hj, hui, computeAttributes_error_iff]
      exact ⟨rfl, hjne, hpn⟩
  · intro cparams env payload merged hj hui h hm
    unfold createOp at h
    cases hA : attachStep ext.md5 env.binary cparams.addAttachments cparams.binaryPropertyNames with
    | error e => rw [hA] at h; cases h
    | ok ares =>
      rw [hA] at h
      dsimp only at h
      rw [hj, hui, hm] at h
      cases h
      rfl

theorem C6_attribute_merge_witness :
    computeAttributes
        (fun _ => some [("author".data, "X".data), ("source".data, "json".data)])
        "j".data [("source".data, "ui".data)] =
      .ok [("author".data, "X".data), ("source".data, "ui".data)] ∧
    lookupStr [("author".data, "X".data), ("source".data, "ui".data)] "source".data =
      (match lookupStr [("source".data, "ui".data)] "source".data with
       | some v => some v
       | none =>
         lookupStr [("author".data, "X".data), ("source".data, "json".data)] "source".data) :=
  have hm : computeAttributes
      (fun _ => some [("author".data, "X".data), ("source".data, "json".data)])
      "j".data [("source".data, "ui".data)] =
      .ok [("author".data, "X".data), ("source".data, "ui".data)] := by rfl
  ⟨hm,
    ((C6_attribute_merge
        { md5 := fun l => l, regexCompile := fun _ _ => none,
          parseJson := fun _ => some [("author".data, "X".data), ("source".data, "json".data)],
          sanitize := fun s => s }
        "j".data [("source".data, "ui".data)]).2.1
      [("author".data, "X".data), ("source".data, "ui".data)] hm (by decide)).1
      [("author".data, "X".data), ("source".data, "json".data)]
      (by decide) rfl (by decide) "source".data⟩

theorem updateModeContent_searchReplace (ext : Externals) (params : UpdateParams)
    (hmode : params.contentEditingMode = "searchReplace".data) (note : FetchedNote) :
    updateModeContent ext params note =
      searchReplaceContent ext.regexCompile params.searchValue params.useRegex
        params.caseSensitive (extractEnmlBody (jsOr note.content []))
        (if params.contentMode = "html".data then params.contentHtml else params.content) := by
  unfold updateModeContent
  rw [hmode,
    if_neg (by decide : ¬ (("searchReplace".data : Str) = "keep".data)),
    if_neg (by decide : ¬ (("searchReplace".data : Str) = "replace".data)),
    if_neg (by decide : ¬ (("searchReplace".data : Str) = "append".data)),
    if_pos rfl]

theorem searchReplaceContent_error_iff (rc : Str → Bool → Option (Str → Str → Str))
    (sv : Str) (ur cs : Bool) (body repl : Str) :
    (searchReplaceContent rc sv ur cs body repl = .error .emptySearchValue ↔ sv = []) ∧
    (searchReplaceContent rc sv ur cs body repl = .error .invalidPattern ↔
      (sv ≠ [] ∧ rc (if ur then sv else escapeRegExp sv) cs = none)) := by
  unfold searchReplaceContent
  by_cases hsv : sv = []
  · simp [hsv]
  · rw [if_neg hsv]
    dsimp only
    cases hc : rc (if ur then sv else escapeRegExp sv) cs with
    | none => simp [hsv, hc]
    | some f => simp [hsv, hc]

/-- C7: with the attachment step succeeding, a SearchReplace update fails
with the empty-search validation error exactly when the search value is
empty, and with the invalid-pattern error exactly when the search value is
non-empty and the (escaped-literal or verbatim) pattern fails to compile;
on any error the item issues no `updateNote` call. -/
theorem C7_searchreplace_errors (ext : Externals) (params : UpdateParams) (env : Env)
    (ares : Option ResourceBuildResult)
    (hmode : params.contentEditingMode = "searchReplace".data)
    (hA : attachStep ext.md5 env.binary params.addAttachments params.binaryPropertyNames =
      .ok ares) :
    ((updateOp ext params env).2 = .error .emptySearchValue ↔ params.searchValue = []) ∧
    ((updateOp ext params env).2 = .error .invalidPattern ↔
      (params.searchValue ≠ [] ∧
        ext.regexCompile
          (if params.useRegex then params.searchValue else escapeRegExp params.searchValue)
          params.caseSensitive = none)) ∧
    (∀ e, (updateOp ext params env).2 = .error e →
      ∀ p, ServiceCall.updateNote p ∉ (updateOp ext params env).1) := by
  have hsr := searchReplaceContent_error_iff ext.regexCompile params.searchValue
    params.useRegex params.caseSensitive
    (extractEnmlBody (jsOr (fetchedNoteFor params env).content []))
    (if params.contentMode = "html".data then params.contentHtml else params.content)
  refine ⟨?_, ?_, fun e he => updateOp_error_no_update_call ext params env e he⟩
  · rw [updateOp_error_iff ext params env ares Err.emptySearchValue hA,
      updateModeContent_searchReplace ext params hmode]
    constructor
    · rintro (h1 | ⟨c0, _, herr⟩)
      · exact (hsr.1).mp h1
      · rw [computeAttributes_error_iff] at herr
        cases herr.1
    · intro hsv
      exact Or.inl ((hsr.1).mpr hsv)
  · rw [updateOp_error_iff ext params env ares Err.invalidPattern hA,
      updateModeContent_searchReplace ext params hmode]
    constructor
    · rintro (h1 | ⟨c0, _, herr⟩)
      · exact (hsr.2).mp h1
      · rw [computeAttributes_error_iff] at herr
        cases herr.1
    · intro hcond
      exact Or.inl ((hsr.2).mpr hcond)

theorem C7_searchreplace_errors_witness :
    (((updateOp plainExternals
        { baseUpdateParams with contentEditingMode := "searchReplace".data } baseEnv).2 =
          .error .emptySearchValue ↔
        ({ baseUpdateParams with
            contentEditingMode := "searchReplace".data } : UpdateParams).searchValue = []) ∧
      ((updateOp plainExternals
        { baseUpdateParams with contentEditingMode := "searchReplace".data } baseEnv).2 =
          .error .invalidPattern ↔
        (({ baseUpdateParams with
            contentEditingMode := "searchReplace".data } : UpdateParams).searchValue ≠ [] ∧
          plainExternals.regexCompile
            (if ({ baseUpdateParams with
                contentEditingMode := "searchReplace".data } : UpdateParams).useRegex then
              ({ baseUpdateParams with
                contentEditingMode := "searchReplace".data } : UpdateParams).searchValue
            else escapeRegExp
              ({ baseUpdateParams with
                contentEditingMode := "searchReplace".data } : UpdateParams).searchValue)
            ({ baseUpdateParams with
              contentEditingMode := "searchReplace".data } : UpdateParams).caseSensitive =
            none)) ∧
      (∀ e, (updateOp plainExternals
          { baseUpdateParams with contentEditingMode := "searchReplace".data } baseEnv).2 =
            .error e →
        ∀ p, ServiceCall.updateNote p ∉
          (updateOp plainExternals
            { baseUpdateParams with contentEditingMode := "searchReplace".data } baseEnv).1)) :=
  C7_searchreplace_errors plainExternals
    { baseUpdateParams with contentEditingMode := "searchReplace".data } baseEnv none rfl rfl

theorem parsePattern_escape (sv : Str) :
    parsePattern (escapeRegExp sv) = some (sv.map RItem.lit) := by
  induction sv with
  | nil => rfl
  | cons c rest ih =>
    rw [escapeRegExp]
    by_cases hm : c ∈ regexMetachars
    · rw [if_pos hm, parsePattern.eq_def]
      dsimp only
      have hd : ¬ c = 'd' := by
        intro hc
        subst hc
        exact absurd hm (by decide)
      rw [if_pos rfl, if_neg hd, if_pos (Or.inl hm), ih]
      rfl
    · rw [if_neg hm, parsePattern.eq_def]
      dsimp only
      rw [if_neg (show ¬ c = '\\' from fun hc => hm (by rw [hc]; decide)),
        if_neg hm, ih]
      rfl

theorem substApply_cons_ne_dollar (m b a : Str) (c : Char) (rest : Str) (h : ¬ c = '$') :
    substApply m b a (c :: rest) = c :: substApply m b a rest := by
  cases rest <;> simp [substApply, h]

theorem substApply_no_dollar (m b a repl : Str) (h : '$' ∉ repl) :
    substApply m b a repl = repl := by
  induction repl with
  | nil => rfl
  | cons c rest ih =>
    rw [List.mem_cons] at h
    push_neg at h
    rw [substApply_cons_ne_dollar m b a c rest (fun hc => h.1 hc.symm), ih h.2]

theorem matchItems_lit (ci : Bool) (search : Str) : ∀ s : Str,
    matchItems ci (search.map RItem.lit) s =
      if search.length ≤ s.length ∧ ciEqStr ci search (s.take search.length)
      then some (s.take search.length, s.drop search.length) else none := by
  induction search with
  | nil =>
    intro s
    rw [if_pos (by constructor <;> simp [ciEqStr])]
    simp [matchItems]
  | cons p ps ih =>
    intro s
    cases s with
    | nil =>
      rw [if_neg (by simp)]
      rfl
    | cons c cs =>
      simp only [List.map_cons, matchItems, itemMatches, decide_eq_true_eq]
      rw [ih cs]
      by_cases hm : lowerIf ci c = lowerIf ci p
      · rw [if_pos hm]
        by_cases hc : ps.length ≤ cs.length ∧ ciEqStr ci ps (cs.take ps.length)
        · have hcond2 : (p :: ps).length ≤ (c :: cs).length ∧
              ciEqStr ci (p :: ps) ((c :: cs).take (p :: ps).length) := by
            refine ⟨by simp [hc.1], ?_⟩
            show ciEqStr ci (p :: ps) ((c :: cs).take (ps.length + 1))
            rw [List.take_succ_cons]
            unfold ciEqStr
            simp only [List.map_cons, List.cons.injEq]
            exact ⟨hm.symm, hc.2⟩
          rw [if_pos hc, if_pos hcond2]
          simp [List.take_succ_cons, List.drop_succ_cons]
        · have hcond2 : ¬ ((p :: ps).length ≤ (c :: cs).length ∧
              ciEqStr ci (p :: ps) ((c :: cs).take (p :: ps).length)) := by
            rintro ⟨h1, h2⟩
            apply hc
            refine ⟨by simpa using h1, ?_⟩
            rw [show (p :: ps).length = ps.length + 1 from rfl, List.take_succ_cons] at h2
            unfold ciEqStr at h2
            simp only [List.map_cons, List.cons.injEq] at h2
            exact h2.2
          rw [if_neg hc, if_neg hcond2]
      · have hcond2 : ¬ ((p :: ps).length ≤ (c :: cs).length ∧
            ciEqStr ci (p :: ps) ((c :: cs).take (p :: ps).length)) := by
          rintro ⟨h1, h2⟩
          rw [show (p :: ps).length = ps.length + 1 from rfl, List.take_succ_cons] at h2
          unfold ciEqStr at h2
          simp only [List.map_cons, List.cons.injEq] at h2
          exact hm h2.1.symm
        rw [if_neg hm, if_neg hcond2]

theorem replGo_eq_litGo (ci : Bool) (search repl : Str) (hs : search ≠ [])
    (hnd : '$' ∉ repl) : ∀ (fuel : Nat) (before s : Str),
    replGo ci (search.map RItem.lit) repl fuel before s = litGo ci search repl fuel s := by
  have hitems : search.map RItem.lit ≠ [] := by
    intro hmap
    exact hs (List.map_eq_nil_iff.mp hmap)
  intro fuel
  induction fuel with
  | zero => intro before s; rfl
  | succ fuel ih =>
    intro before s
    cases s with
    | nil =>
      rw [replGo, litGo, if_neg hitems]
    | cons c cs =>
      rw [replGo, litGo, matchItems_lit]
      by_cases hcond : search.length ≤ (c :: cs).length ∧
          ciEqStr ci search ((c :: cs).take search.length)
      · rw [if_pos hcond, if_pos hcond]
        dsimp only
        rw [if_neg hitems,
          substApply_no_dollar _ _ _ _ hnd, ih]
      · rw [if_neg hcond, if_neg hcond]
        dsimp only
        rw [ih]

theorem jsRegexCompile_escape (sv : Str) (caseSensitive : Bool) :
    jsRegexCompile (escapeRegExp sv) caseSensitive =
      some (fun body repl =>
        replGo (!caseSensitive) (sv.map RItem.lit) repl (body.length + 1) [] body) := by
  unfold jsRegexCompile
  rw [parsePattern_escape]
  rfl

/-- C3 (amended): with `useRegex` disabled, a non-empty search value and a
replacement value containing no `$`, the search-and-replace branch
replaces every occurrence of the search value taken literally — every
regex metacharacter escaped — globally, matching case-insensitively
exactly when the `caseSensitive` flag is off; concretely, literal search
`"."` with replacement `","` on `"price: $5.00"` gives `"price: $5,00"`,
and regex `"\d"` with replacement `"#"` gives `"price: $#.##"`.
(Replacement values containing `$` are interpreted under JavaScript
substitution rules instead of being inserted verbatim.) -/
theorem C3_searchreplace_literal_global (search repl body : Str) (caseSensitive : Bool)
    (hs : search ≠ []) (hnd : '$' ∉ repl) :
    searchReplaceContent jsRegexCompile search false caseSensitive body repl =
      .ok (literalReplaceAll (!caseSensitive) search repl body) ∧
    searchReplaceContent jsRegexCompile ".".data false false "price: $5.00".data ",".data =
      .ok "price: $5,00".data ∧
    searchReplaceContent jsRegexCompile "\\d".data true false "price: $5.00".data "#".data =
      .ok "price: $#.##".data := by
  refine ⟨?_, by rfl, by rfl⟩
  unfold searchReplaceContent
  rw [if_neg hs]
  dsimp only
  rw [if_neg (by simp : ¬ (false : Bool) = true), jsRegexCompile_escape]
  dsimp only
  unfold literalReplaceAll
  rw [replGo_eq_litGo (!caseSensitive) search repl hs hnd]

/-- C3 counterexample: with replacement text `$$` — JavaScript substitution
syntax for one dollar sign — replacing the literal search `a` in body `a`
yields `$`, not the replacement value `$$` itself, so "replaces all
occurrences of the search value with the replacement value" fails as
stated for replacement values containing `$`. -/
theorem C3_searchreplace_literal_global_counterexample :
    searchReplaceContent jsRegexCompile "a".data false false "a".data "$$".data =
      .ok "$".data ∧
    "$".data ≠ "$$".data :=
  ⟨by rfl, by decide⟩

theorem C3_searchreplace_literal_global_witness :
    ("a".data ≠ ([] : Str) ∧ '$' ∉ "X".data) ∧
    (searchReplaceContent jsRegexCompile "a".data false false "bAba".data "X".data =
      .ok (literalReplaceAll (!false) "a".data "X".data "bAba".data) ∧
    searchReplaceContent jsRegexCompile ".".data false false "price: $5.00".data ",".data =
      .ok "price: $5,00".data ∧
    searchReplaceContent jsRegexCompile "\\d".data true false "price: $5.00".data "#".data =
      .ok "price: $#.##".data) :=
  ⟨⟨by decide, by decide⟩,
    C3_searchreplace_literal_global "a".data "X".data "bAba".data false
      (by decide) (by decide)⟩
